import Mathlib

/-!
Verification of the grasp-quality evaluation, output-decoding and loss
logic of the GGCNN training repository (src/train_ggcnn.py and the modules
it imports). Pixel maps are embedded as dimension-tagged lookup functions,
machine floats as exact rationals/reals, and the imperative validate loop
as an explicit fold over the validation samples.
-/

namespace GGCNN

/-- A 2D numeric array (a host-memory tensor), given by its dimensions and
a pixel lookup function. -/
structure PixelMap (α : Type) where
  height : ℕ
  width : ℕ
  val : ℕ → ℕ → α

/-- A grasp candidate: a (row, col) pixel location, its angle, its width
and its confidence (the position-map value at that location). -/
structure Candidate (α : Type) where
  row : ℕ
  col : ℕ
  angle : α
  width : α
  confidence : α

/-- A ground-truth grasp rectangle: a pixel mask plus a target angle. -/
structure GtRect (α : Type) where
  mask : List (ℕ × ℕ)
  angle : α

section Generic

variable {α : Type} [LinearOrderedField α] [FloorRing α]

/-- Floating-point style remainder: `x mod p = x - p * floor (x / p)`. -/
def fmod (x p : α) : α := x - p * (⌊x / p⌋ : ℤ)

/-- Modelled from the spec: the absolute angular difference between two
grasp angles, computed modulo the period `p` (grasp angle is π-periodic,
so `p` is instantiated with π). -/
def angdiff (p a b : α) : α := fmod |a - b| p

/-- Modelled from the spec: the match test of the Grasp Evaluator
(utils.dataset_processing.evaluation, not under src/): a candidate matches
a rectangle iff its (row, col) pixel lies inside the rectangle's pixel
mask and the absolute angular difference modulo `p` is at most `tol`. -/
def candMatch (p tol : α) (c : Candidate α) (r : GtRect α) : Bool :=
  decide ((c.row, c.col) ∈ r.mask) && decide (angdiff p c.angle r.angle ≤ tol)

/-- Modelled from the spec: the Grasp Evaluator
(utils.dataset_processing.evaluation, not under src/): evaluation
succeeds iff any candidate matches any ground-truth rectangle; an empty
rectangle list therefore yields failure, never an exception. -/
def evaluation (p tol : α) (cands : List (Candidate α))
    (rects : List (GtRect α)) : Bool :=
  cands.any fun c => rects.any fun r => candMatch p tol c r

end Generic

section Extractor

variable {α : Type} [LinearOrderedField α]

/-- The eight neighbour offsets of the local-maximum test. -/
def nbrOffsets : List (ℤ × ℤ) :=
  [(-1, -1), (-1, 0), (-1, 1), (0, -1), (0, 1), (1, -1), (1, 0), (1, 1)]

/-- Modelled from the spec: non-maximum suppression within a unit
neighbourhood radius — (r, c) is a local maximum of `m` iff no in-bounds
neighbour holds a strictly larger value. -/
def isLocalMax (m : PixelMap α) (r c : ℕ) : Bool :=
  nbrOffsets.all fun d =>
    decide ((r : ℤ) + d.1 < 0) || decide ((c : ℤ) + d.2 < 0) ||
    decide (m.height ≤ ((r : ℤ) + d.1).toNat) ||
    decide (m.width ≤ ((c : ℤ) + d.2).toNat) ||
    decide (m.val ((r : ℤ) + d.1).toNat ((c : ℤ) + d.2).toNat ≤ m.val r c)

/-- All pixel coordinates of an h × w map, in row-major order. -/
def allPixels (h w : ℕ) : List (ℕ × ℕ) :=
  (List.range h).flatMap fun r => (List.range w).map fun c => (r, c)

/-- Row-major linear index of a candidate's pixel in a map of width w. -/
def rmIdx (w : ℕ) (c : Candidate α) : ℕ := c.row * w + c.col

/-- Modelled from the spec: the extractor's sorting key — descending
confidence, ties broken by row-major pixel order. -/
def candLE (w : ℕ) (a b : Candidate α) : Bool :=
  decide (b.confidence < a.confidence) ||
  (decide (a.confidence = b.confidence) && decide (rmIdx w a ≤ rmIdx w b))

/-- Modelled from the spec: the Grasp Candidate Extractor (not under
src/): keep the pixels at or above the minimum-confidence floor that are
local maxima of the position map, form a candidate from each with the
corresponding angle and width values, sort by descending confidence with
row-major tie-break, and return the first `maxCands` of them. -/
def extract (minConf : α) (maxCands : ℕ)
    (pos ang wid : PixelMap α) : List (Candidate α) :=
  let pts := (allPixels pos.height pos.width).filter fun rc =>
    decide (minConf ≤ pos.val rc.1 rc.2) && isLocalMax pos rc.1 rc.2
  let cands : List (Candidate α) := pts.map fun rc =>
    ⟨rc.1, rc.2, ang.val rc.1 rc.2, wid.val rc.1 rc.2, pos.val rc.1 rc.2⟩
  (cands.mergeSort (candLE pos.width)).take maxCands

end Extractor

section Loss

variable {α : Type} [LinearOrderedField α]

/-- Modelled from the spec: smooth-L1 / Huber per-element loss —
quadratic below unit error, linear above. -/
def smoothL1 (x : α) : α := if |x| < 1 then x ^ 2 / 2 else |x| - 1 / 2

/-- Modelled from the spec: one per-term loss — the mean smoothed
absolute error between a raw output map and its target map. -/
def termLoss (pred target : PixelMap α) : α :=
  (∑ r ∈ Finset.range pred.height, ∑ c ∈ Finset.range pred.width,
    smoothL1 (pred.val r c - target.val r c)) / (pred.height * pred.width : α)

/-- The four raw output maps produced by one network forward pass
(the `pred` dictionary of the loss record). -/
structure NetOutput (α : Type) where
  pred_pos : PixelMap α
  pred_cos : PixelMap α
  pred_sin : PixelMap α
  pred_wid : PixelMap α

/-- The `losses` dictionary of the loss record: its four keys are fixed
(loss_pos, loss_cos, loss_sin, loss_wid). -/
structure Losses (α : Type) where
  loss_pos : α
  loss_cos : α
  loss_sin : α
  loss_wid : α

/-- The record returned by the loss function: total loss, per-term
losses, and the raw prediction maps. -/
structure LossRecord (α : Type) where
  loss : α
  losses : Losses α
  pred : NetOutput α

/-- One forward pass of the network, threading an explicit count of
forward passes performed so far. -/
def runNet {I : Type} (net : I → NetOutput α) (calls : ℕ) (x : I) :
    NetOutput α × ℕ :=
  (net x, calls + 1)

/-- Modelled from the spec: focal_loss of models.loss (not under src/),
instrumented with a forward-pass counter: run the network once, compute
the four smooth-L1 per-term losses against the four target maps, total
them with equal weight, and return the raw predictions alongside. -/
def focal_loss_instr {I : Type} (net : I → NetOutput α) (calls : ℕ) (x : I)
    (tpos tcos tsin twid : PixelMap α) : LossRecord α × ℕ :=
  let pc := runNet net calls x
  let lp := termLoss pc.1.pred_pos tpos
  let lc := termLoss pc.1.pred_cos tcos
  let ls := termLoss pc.1.pred_sin tsin
  let lw := termLoss pc.1.pred_wid twid
  (⟨lp + lc + ls + lw, ⟨lp, lc, ls, lw⟩, pc.1⟩, pc.2)

/-- Modelled from the spec: focal_loss of models.loss (not under src/),
as called in src/train_ggcnn.py lines 98 and 150. -/
def focal_loss {I : Type} (net : I → NetOutput α) (x : I)
    (tpos tcos tsin twid : PixelMap α) : LossRecord α :=
  (focal_loss_instr net 0 x tpos tcos tsin twid).1

end Loss

section Decoder

/-- Two-argument arctangent with the convention atan2 0 0 = 0 and range
(-π, π], embedded as the argument of the complex number x + y i. -/
noncomputable def atan2 (y x : ℝ) : ℝ := Complex.arg ⟨x, y⟩

/-- The angle decoding of src/train_ggcnn.py line 108:
angle = atan2(sin, cos) / 2. -/
noncomputable def decodeAngle (cosv sinv : ℝ) : ℝ := atan2 sinv cosv / 2

/-- The pointwise decoded angle map `torch.atan2(sin, cos) / 2.0`
(src/train_ggcnn.py line 108, applied there to the target cos and sin
channels y[1] and y[2]). -/
noncomputable def angleMap (cosM sinM : PixelMap ℝ) : PixelMap ℝ :=
  ⟨cosM.height, cosM.width, fun r c => decodeAngle (cosM.val r c) (sinM.val r c)⟩

/-- Modelled from the spec: the fixed width denormalization constant. -/
def WIDTH_SCALE : ℝ := 150

/-- Pointwise scaling of a map by a constant. -/
def scaleMap {α : Type} [LinearOrderedField α] (s : α) (m : PixelMap α) :
    PixelMap α :=
  ⟨m.height, m.width, fun r c => s * m.val r c⟩

/-- Modelled from the spec: post_process_output of models.common (not
under src/): the position map (smoothing taken as the identity, which
keeps the array shape), the decoded angle map, and the denormalized
width map. -/
noncomputable def post_process_output (pos cosM sinM wid : PixelMap ℝ) :
    PixelMap ℝ × PixelMap ℝ × PixelMap ℝ :=
  (pos, angleMap cosM sinM, scaleMap WIDTH_SCALE wid)

end Decoder

section Validate

/-- Maximum pixel value of a map (as np.max, with 0 for an empty map). -/
def mapMax {α : Type} [LinearOrderedField α] (m : PixelMap α) : α :=
  ((allPixels m.height m.width).map fun rc => m.val rc.1 rc.2).foldr max 0

/-- One validation sample as yielded by the dataset collaborator: the
input image, the four ground-truth target maps y[0]..y[3] (position,
cos, sin, width), and the ground-truth grasp rectangles of the image. -/
structure Sample (I : Type) where
  x : I
  y0 : PixelMap ℝ
  y1 : PixelMap ℝ
  y2 : PixelMap ℝ
  y3 : PixelMap ℝ
  rects : List (GtRect ℝ)

/-- The results dictionary accumulated by validate (src/train_ggcnn.py
lines 81-87), with its four fixed per-term loss keys. -/
structure ValResults (α : Type) where
  accuracy : α
  graspable : α
  loss : α
  losses : Losses α

/-- The per-image binary evaluation result inside validate
(src/train_ggcnn.py lines 98-109): forward pass via focal_loss,
post-processing of the raw outputs, candidate extraction and matching
against the image's ground-truth rectangles. -/
noncomputable def perImageRet {I : Type} (net : I → NetOutput ℝ)
    (minConf tol : ℝ) (s : Sample I) : Bool :=
  let lossd := focal_loss net s.x s.y0 s.y1 s.y2 s.y3
  let out := post_process_output lossd.pred.pred_pos lossd.pred.pred_cos
    lossd.pred.pred_sin lossd.pred.pred_wid
  evaluation Real.pi tol (extract minConf 1 out.1 out.2.1 out.2.2) s.rects

/-- One loop iteration of validate (src/train_ggcnn.py lines 93-118):
compute the loss record, post-process the raw outputs, evaluate against
the ground truth, and add the batch's contributions (each divided by the
dataset length ld) into the running results. -/
noncomputable def validateStep {I : Type} (net : I → NetOutput ℝ)
    (minConf tol : ℝ) (ld : ℕ) (res : ValResults ℝ) (s : Sample I) :
    ValResults ℝ :=
  let lossd := focal_loss net s.x s.y0 s.y1 s.y2 s.y3
  let out := post_process_output lossd.pred.pred_pos lossd.pred.pred_cos
    lossd.pred.pred_sin lossd.pred.pred_wid
  let ret := perImageRet net minConf tol s
  { accuracy := res.accuracy + (if ret then 1 else 0) / (ld : ℝ)
    graspable := res.graspable + mapMax out.1 / (ld : ℝ)
    loss := res.loss + lossd.loss / (ld : ℝ)
    losses :=
      ⟨res.losses.loss_pos + lossd.losses.loss_pos / (ld : ℝ),
       res.losses.loss_cos + lossd.losses.loss_cos / (ld : ℝ),
       res.losses.loss_sin + lossd.losses.loss_sin / (ld : ℝ),
       res.losses.loss_wid + lossd.losses.loss_wid / (ld : ℝ)⟩ }

/-- validate of src/train_ggcnn.py lines 69-120, with the network's
parameter state passed explicitly: the network is put in evaluation mode
and run under torch.no_grad, so the body only reads the parameters
(through the forward passes) while accumulating the results dictionary,
and the parameters are returned unchanged alongside the results. -/
noncomputable def validate {P I : Type} (forward : P → I → NetOutput ℝ)
    (params : P) (minConf tol : ℝ) (valData : List (Sample I)) :
    ValResults ℝ × P :=
  (valData.foldl (validateStep (forward params) minConf tol valData.length)
    ⟨0, 0, 0, ⟨0, 0, 0, 0⟩⟩, params)

end Validate

/-! ## Theorems -/

/-- C1: evaluation returns success true iff some candidate matches some
ground-truth rectangle — mask membership together with absolute angular
difference modulo π at most the tolerance — and θ and θ + π count as a
zero angular difference. -/
theorem evaluation_success_iff_match :
    (∀ (tol : ℝ) (cands : List (Candidate ℝ)) (rects : List (GtRect ℝ)),
      evaluation Real.pi tol cands rects = true ↔
        ∃ c ∈ cands, ∃ r ∈ rects,
          (c.row, c.col) ∈ r.mask ∧ fmod |c.angle - r.angle| Real.pi ≤ tol)
    ∧ ∀ θ : ℝ, fmod |θ - (θ + Real.pi)| Real.pi = 0 := by
  constructor
  · intro tol cands rects
    simp [evaluation, candMatch, angdiff, List.any_eq_true]
  · intro θ
    have hπ : (0:ℝ) < Real.pi := Real.pi_pos
    have h1 : θ - (θ + Real.pi) = -Real.pi := by ring
    rw [h1, abs_neg, abs_of_pos hπ, fmod, div_self hπ.ne']
    norm_num

/-- C2: at every pixel the decoded angle map equals
atan2(sin, cos) / 2, and every decoded angle lies in (-π/2, π/2]. -/
theorem angleMap_atan2_halved_mem_Ioc (cosM sinM : PixelMap ℝ) (r c : ℕ) :
    (angleMap cosM sinM).val r c = atan2 (sinM.val r c) (cosM.val r c) / 2
    ∧ (angleMap cosM sinM).val r c ∈ Set.Ioc (-(Real.pi / 2)) (Real.pi / 2) := by
  refine ⟨rfl, ?_⟩
  have h := Complex.arg_mem_Ioc ⟨cosM.val r c, sinM.val r c⟩
  simp only [Set.mem_Ioc] at h
  simp only [angleMap, decodeAngle, atan2, Set.mem_Ioc]
  constructor
  · linarith [h.1]
  · linarith [h.2]

/-- C6: against an empty (or missing) ground-truth rectangle list,
evaluation returns failure for every candidate list and tolerance; it is
a total function, so no exception is raised. -/
theorem evaluation_empty_ground_truth_false (tol : ℝ)
    (cands : List (Candidate ℝ)) :
    evaluation Real.pi tol cands [] = false := by
  simp [evaluation]

/-- C9: the loss function performs exactly one network forward pass per
call (the instrumented call counter grows by exactly one), and the raw
predictions in the returned record equal the network's output on the
given input, so the caller can decode and evaluate those same maps
without a second forward pass. -/
theorem focal_loss_single_forward_returns_pred {I : Type}
    (net : I → NetOutput ℝ) (calls : ℕ) (x : I)
    (tpos tcos tsin twid : PixelMap ℝ) :
    (focal_loss_instr net calls x tpos tcos tsin twid).2 = calls + 1
    ∧ (focal_loss_instr net calls x tpos tcos tsin twid).1.pred = net x
    ∧ (focal_loss net x tpos tcos tsin twid).pred = net x :=
  ⟨rfl, rfl, rfl⟩

/-- C10: validate leaves the network's parameters unchanged — with the
parameter state passed explicitly, the body only reads the parameters
through the forward passes (evaluation mode, no gradients, no optimizer
step), so the parameters returned equal the parameters passed in, for
every network and validation dataset. -/
theorem validate_preserves_params {P I : Type}
    (forward : P → I → NetOutput ℝ) (params : P) (minConf tol : ℝ)
    (valData : List (Sample I)) :
    (validate forward params minConf tol valData).2 = params := rfl

/-- C3: the loss record holds one per-term loss for each of the four
channels, each the smoothed absolute-error (smooth-L1 / Huber) regression
between the raw output map and its target map, and the total loss equals
the unweighted sum of the four per-term values. -/
theorem focal_loss_sum_of_smoothL1_terms {I : Type} (net : I → NetOutput ℝ)
    (x : I) (tpos tcos tsin twid : PixelMap ℝ) :
    (focal_loss net x tpos tcos tsin twid).loss
      = (focal_loss net x tpos tcos tsin twid).losses.loss_pos
        + (focal_loss net x tpos tcos tsin twid).losses.loss_cos
        + (focal_loss net x tpos tcos tsin twid).losses.loss_sin
        + (focal_loss net x tpos tcos tsin twid).losses.loss_wid
    ∧ (focal_loss net x tpos tcos tsin twid).losses.loss_pos
        = termLoss (net x).pred_pos tpos
    ∧ (focal_loss net x tpos tcos tsin twid).losses.loss_cos
        = termLoss (net x).pred_cos tcos
    ∧ (focal_loss net x tpos tcos tsin twid).losses.loss_sin
        = termLoss (net x).pred_sin tsin
    ∧ (focal_loss net x tpos tcos tsin twid).losses.loss_wid
        = termLoss (net x).pred_wid twid
    ∧ ∀ pm tm : PixelMap ℝ, termLoss pm tm
        = (∑ r ∈ Finset.range pm.height, ∑ c ∈ Finset.range pm.width,
            if |pm.val r c - tm.val r c| < 1
            then (pm.val r c - tm.val r c) ^ 2 / 2
            else |pm.val r c - tm.val r c| - 1 / 2)
          / (pm.height * pm.width : ℝ) :=
  ⟨rfl, rfl, rfl, rfl, rfl, fun _ _ => rfl⟩

/-- C4: encoding an angle θ as (cos 2θ, sin 2θ) and decoding through the
angle formula recovers an angle congruent to θ modulo π, within a
tolerance of 1e-6 (here, exactly). -/
theorem decode_encode_roundtrip_mod_pi (θ : ℝ) :
    ∃ k : ℤ, |decodeAngle (Real.cos (2 * θ)) (Real.sin (2 * θ))
      - (θ + (k : ℝ) * Real.pi)| ≤ 1 / 1000000 := by
  set ψ := 2 * θ with hψ
  set a := (ψ : Real.Angle).toReal with ha
  have hmem : a ∈ Set.Ioc (-Real.pi) Real.pi := Real.Angle.toReal_mem_Ioc _
  have hcoe : ((a : ℝ) : Real.Angle) = (ψ : Real.Angle) :=
    Real.Angle.coe_toReal _
  obtain ⟨k, hk⟩ := Real.Angle.angle_eq_iff_two_pi_dvd_sub.mp hcoe
  have h2 : a = ψ + (k : ℝ) * (2 * Real.pi) := by linear_combination hk
  have hcos : Real.cos a = Real.cos ψ := by
    rw [h2, Real.cos_add_int_mul_two_pi]
  have hsin : Real.sin a = Real.sin ψ := by
    rw [h2, Real.sin_add_int_mul_two_pi]
  have harg : atan2 (Real.sin ψ) (Real.cos ψ) = a := by
    rw [atan2, ← hcos, ← hsin]
    have hmk : (⟨Real.cos a, Real.sin a⟩ : ℂ)
        = Complex.cos (a : ℂ) + Complex.sin (a : ℂ) * Complex.I := by
      rw [Complex.mk_eq_add_mul_I, Complex.ofReal_cos, Complex.ofReal_sin]
    rw [hmk]
    exact Complex.arg_cos_add_sin_mul_I hmem
  refine ⟨k, ?_⟩
  have hdec : decodeAngle (Real.cos ψ) (Real.sin ψ) = a / 2 := by
    rw [decodeAngle, harg]
  rw [hdec]
  have hz : a / 2 - (θ + (k : ℝ) * Real.pi) = 0 := by
    rw [h2, hψ]; ring
  rw [hz, abs_zero]
  norm_num

/-- The accuracy field of the validate fold: each iteration adds the
image's binary result divided by the dataset length. -/
lemma foldl_validateStep_accuracy {I : Type} (net : I → NetOutput ℝ)
    (minConf tol : ℝ) (ld : ℕ) (data : List (Sample I))
    (init : ValResults ℝ) :
    (data.foldl (validateStep net minConf tol ld) init).accuracy
      = init.accuracy
        + (data.map fun s =>
            (if perImageRet net minConf tol s then (1:ℝ) else 0)
              / (ld : ℝ)).sum := by
  induction data generalizing init with
  | nil => simp
  | cons s rest ih =>
      simp only [List.foldl_cons, List.map_cons, List.sum_cons, ih]
      simp only [validateStep]
      ring

/-- Dividing each summand by a constant divides the sum. -/
lemma sum_map_div {β : Type} (l : List β) (f : β → ℝ) (c : ℝ) :
    (l.map fun s => f s / c).sum = (l.map f).sum / c := by
  induction l with
  | nil => simp
  | cons a t ih => simp [ih, add_div]

/-- C5: each image's evaluation result is binary — success or failure
with no partial credit — and validate's aggregate accuracy equals the
arithmetic mean of the per-image binary results. -/
theorem validate_accuracy_mean_binary {P I : Type}
    (forward : P → I → NetOutput ℝ) (params : P) (minConf tol : ℝ)
    (data : List (Sample I)) :
    (validate forward params minConf tol data).1.accuracy
      = ((data.map fun s =>
          if perImageRet (forward params) minConf tol s then (1:ℝ) else 0).sum)
        / (data.length : ℝ)
    ∧ ∀ s ∈ data,
        (if perImageRet (forward params) minConf tol s then (1:ℝ) else 0) = 1
        ∨ (if perImageRet (forward params) minConf tol s then (1:ℝ) else 0)
            = 0 := by
  constructor
  · show (data.foldl
        (validateStep (forward params) minConf tol data.length)
        ⟨0, 0, 0, ⟨0, 0, 0, 0⟩⟩).accuracy = _
    rw [foldl_validateStep_accuracy, sum_map_div]
    norm_num
  · intro s _
    by_cases h : perImageRet (forward params) minConf tol s
    · exact Or.inl (by simp [h])
    · exact Or.inr (by simp [h])

/-- A position map uniformly below the floor leaves nothing to extract. -/
lemma extract_eq_nil_of_below {α : Type} [LinearOrderedField α]
    (minConf : α) (maxCands : ℕ) (pos ang wid : PixelMap α)
    (h : ∀ r c, pos.val r c < minConf) :
    extract minConf maxCands pos ang wid = [] := by
  simp only [extract]
  have hf : ((allPixels pos.height pos.width).filter fun rc =>
      decide (minConf ≤ pos.val rc.1 rc.2) && isLocalMax pos rc.1 rc.2)
      = [] := by
    refine List.filter_eq_nil_iff.mpr fun rc _ => ?_
    simp [not_le.mpr (h rc.1 rc.2)]
  rw [hf]
  simp

/-- Inside validate, an image whose raw position output is uniformly
below the floor evaluates to failure. -/
lemma perImageRet_false_of_below {I : Type} (net : I → NetOutput ℝ)
    (minConf tol : ℝ) (s : Sample I)
    (h : ∀ r c, (net s.x).pred_pos.val r c < minConf) :
    perImageRet net minConf tol s = false := by
  simp only [perImageRet, post_process_output, focal_loss, focal_loss_instr,
    runNet]
  rw [extract_eq_nil_of_below _ _ _ _ _ h]
  simp [evaluation]

/-- C7: when the position map is uniformly below the minimum-confidence
floor (in particular an all-zero map with a nonzero floor), extract
returns the empty candidate list (it is total, so nothing is raised),
evaluation of that empty list fails against any ground truth, and a
validate run whose raw position outputs are all uniformly below the
floor reports zero accuracy. -/
theorem extract_below_floor_empty_eval_false {P I : Type}
    (minConf tol : ℝ) (maxCands : ℕ) (pos ang wid : PixelMap ℝ)
    (forward : P → I → NetOutput ℝ) (params : P) (data : List (Sample I))
    (hpos : ∀ r c, pos.val r c < minConf)
    (hdata : ∀ s ∈ data, ∀ r c,
      ((forward params) s.x).pred_pos.val r c < minConf) :
    extract minConf maxCands pos ang wid = []
    ∧ (∀ rects : List (GtRect ℝ),
        evaluation Real.pi tol (extract minConf maxCands pos ang wid) rects
          = false)
    ∧ (validate forward params minConf tol data).1.accuracy = 0 := by
  have hnil := extract_eq_nil_of_below minConf maxCands pos ang wid hpos
  refine ⟨hnil, fun rects => by simp [hnil, evaluation], ?_⟩
  show (data.foldl
      (validateStep (forward params) minConf tol data.length)
      ⟨0, 0, 0, ⟨0, 0, 0, 0⟩⟩).accuracy = 0
  rw [foldl_validateStep_accuracy]
  have hz : (data.map fun s =>
      (if perImageRet (forward params) minConf tol s then (1:ℝ) else 0)
        / (data.length : ℝ)).sum = 0 := by
    refine List.sum_eq_zero fun v hv => ?_
    obtain ⟨s, hs, rfl⟩ := List.mem_map.mp hv
    rw [perImageRet_false_of_below (forward params) minConf tol s
      (hdata s hs)]
    simp
  rw [hz]
  norm_num

/-- An all-zero 2 × 2 pixel map. -/
def zeroMapR : PixelMap ℝ := ⟨2, 2, fun _ _ => 0⟩

/-- A network that outputs all-zero maps on every input. -/
def zeroForward : Unit → Unit → NetOutput ℝ :=
  fun _ _ => ⟨zeroMapR, zeroMapR, zeroMapR, zeroMapR⟩

/-- A validation sample with all-zero targets and no ground-truth
rectangles. -/
def zeroSample : Sample Unit := ⟨(), zeroMapR, zeroMapR, zeroMapR, zeroMapR, []⟩

/-- Witness for C7 at a concrete all-zero 2 × 2 position map, floor 1,
tolerance 1 and a one-sample dataset. -/
theorem extract_below_floor_empty_witness :
    ((∀ r c, zeroMapR.val r c < (1:ℝ))
      ∧ ∀ s ∈ [zeroSample], ∀ r c,
          ((zeroForward ()) s.x).pred_pos.val r c < (1:ℝ))
    ∧ (extract (1:ℝ) 1 zeroMapR zeroMapR zeroMapR = []
      ∧ (∀ rects : List (GtRect ℝ),
          evaluation Real.pi 1 (extract (1:ℝ) 1 zeroMapR zeroMapR zeroMapR)
            rects = false)
      ∧ (validate zeroForward () 1 1 [zeroSample]).1.accuracy = 0) := by
  have hpos : ∀ r c, zeroMapR.val r c < (1:ℝ) := by
    intro r c
    norm_num [zeroMapR]
  have hdata : ∀ s ∈ [zeroSample], ∀ r c,
      ((zeroForward ()) s.x).pred_pos.val r c < (1:ℝ) := by
    intro s hs r c
    rw [List.mem_singleton.mp hs]
    norm_num [zeroForward, zeroMapR]
  exact ⟨⟨hpos, hdata⟩,
    extract_below_floor_empty_eval_false 1 1 1 zeroMapR zeroMapR zeroMapR
      zeroForward () [zeroSample] hpos hdata⟩

/-- The extractor's sorting key is total. -/
lemma candLE_total {α : Type} [LinearOrderedField α] (w : ℕ)
    (a b : Candidate α) : (candLE w a b || candLE w b a) = true := by
  simp only [candLE, Bool.or_eq_true, Bool.and_eq_true, decide_eq_true_eq]
  rcases lt_trichotomy a.confidence b.confidence with h | h | h
  · exact Or.inr (Or.inl h)
  · rcases Nat.le_total (rmIdx w a) (rmIdx w b) with hle | hle
    · exact Or.inl (Or.inr ⟨h, hle⟩)
    · exact Or.inr (Or.inr ⟨h.symm, hle⟩)
  · exact Or.inl (Or.inl h)

/-- The extractor's sorting key is transitive. -/
lemma candLE_trans {α : Type} [LinearOrderedField α] (w : ℕ)
    (a b c : Candidate α) (h1 : candLE w a b) (h2 : candLE w b c) :
    candLE w a c := by
  simp only [candLE, Bool.or_eq_true, Bool.and_eq_true,
    decide_eq_true_eq] at h1 h2 ⊢
  rcases h1 with h1 | ⟨h1e, h1i⟩ <;> rcases h2 with h2 | ⟨h2e, h2i⟩
  · exact Or.inl (lt_trans h2 h1)
  · exact Or.inl (h2e ▸ h1)
  · exact Or.inl (lt_of_lt_of_eq h2 h1e.symm)
  · exact Or.inr ⟨h1e.trans h2e, le_trans h1i h2i⟩

/-- C8: extract is deterministic — two calls on identical input arrays
return identical candidate lists in identical order — and the returned
candidates are sorted by descending confidence with ties broken by
row-major pixel order. -/
theorem extract_sorted_deterministic {α : Type} [LinearOrderedField α]
    (minConf : α) (maxCands : ℕ)
    (pos ang wid pos2 ang2 wid2 : PixelMap α)
    (h : pos = pos2 ∧ ang = ang2 ∧ wid = wid2) :
    (extract minConf maxCands pos ang wid).Pairwise
      (fun a b => b.confidence < a.confidence
        ∨ (a.confidence = b.confidence
            ∧ rmIdx pos.width a ≤ rmIdx pos.width b))
    ∧ extract minConf maxCands pos ang wid
        = extract minConf maxCands pos2 ang2 wid2 := by
  obtain ⟨h1, h2, h3⟩ := h
  subst h1
  subst h2
  subst h3
  refine ⟨?_, rfl⟩
  simp only [extract]
  refine List.Pairwise.imp ?_
    (List.Pairwise.sublist (List.take_sublist _ _)
      (List.sorted_mergeSort (candLE_trans pos.width)
        (candLE_total pos.width) _))
  intro a b hab
  simpa only [candLE, Bool.or_eq_true, Bool.and_eq_true,
    decide_eq_true_eq] using hab

/-- A 1 × 4 rational test map with two tied confidence peaks. -/
def testPosQ : PixelMap ℚ := ⟨1, 4, fun _ c => if c = 1 ∨ c = 3 then 1 else 0⟩

/-- Witness for C8, evaluating extract at a concrete 1 × 4 rational map
(two tied peaks, resolved in row-major order) with identical input
arrays. -/
theorem extract_sorted_deterministic_witness :
    (testPosQ = testPosQ ∧ testPosQ = testPosQ ∧ testPosQ = testPosQ)
    ∧ ((extract (1:ℚ) 4 testPosQ testPosQ testPosQ).Pairwise
        (fun a b => b.confidence < a.confidence
          ∨ (a.confidence = b.confidence
              ∧ rmIdx testPosQ.width a ≤ rmIdx testPosQ.width b))
      ∧ extract (1:ℚ) 4 testPosQ testPosQ testPosQ
          = extract (1:ℚ) 4 testPosQ testPosQ testPosQ) :=
  ⟨⟨rfl, rfl, rfl⟩,
    extract_sorted_deterministic 1 4 testPosQ testPosQ testPosQ
      testPosQ testPosQ testPosQ ⟨rfl, rfl, rfl⟩⟩

end GGCNN
